import Mathlib

-- Verification development for the gdb backtrace colour filter
-- (colour_filter.py).  Strings are modelled as lists of characters; the
-- Python string operations used by the source (str.find, slicing, rsplit,
-- strip, int(), hex(), "%" formatting) are embedded as executable
-- functions.  Fallible code paths (a Python exception) are modelled with
-- Option: `none` stands for an exception escaping the modelled operation.

set_option maxRecDepth 100000

namespace GdbColour

-- Characters of a string literal.
def chars (s : String) : List Char := s.toList

-- ### Decimal and hexadecimal formatting ('%d', '%x', hex())

-- One decimal digit character (used with arguments < 10 only).
def decDigitChar : Nat → Char
  | 0 => '0'
  | 1 => '1'
  | 2 => '2'
  | 3 => '3'
  | 4 => '4'
  | 5 => '5'
  | 6 => '6'
  | 7 => '7'
  | 8 => '8'
  | _ => '9'

-- One lowercase hexadecimal digit character (used with arguments < 16 only).
def hexDigitChar : Nat → Char
  | 0 => '0'
  | 1 => '1'
  | 2 => '2'
  | 3 => '3'
  | 4 => '4'
  | 5 => '5'
  | 6 => '6'
  | 7 => '7'
  | 8 => '8'
  | 9 => '9'
  | 10 => 'a'
  | 11 => 'b'
  | 12 => 'c'
  | 13 => 'd'
  | 14 => 'e'
  | _ => 'f'

-- Decimal rendering of a natural number, fuel-based for structural
-- recursion; fuel n+1 always suffices since n/10 < n.
def natDecAux : Nat → Nat → List Char
  | 0, _ => []
  | fuel + 1, n =>
    if n < 10 then [decDigitChar n]
    else natDecAux fuel (n / 10) ++ [decDigitChar (n % 10)]

def natDec (n : Nat) : List Char := natDecAux (n + 1) n

-- Lowercase hexadecimal rendering of a natural number (no '0x', no padding).
def natHexAux : Nat → Nat → List Char
  | 0, _ => []
  | fuel + 1, n =>
    if n < 16 then [hexDigitChar n]
    else natHexAux fuel (n / 16) ++ [hexDigitChar (n % 16)]

def natHex (n : Nat) : List Char := natHexAux (n + 1) n

-- '%016x': 16-wide zero-padded lowercase hex digits.
def hexPad16 (n : Nat) : List Char :=
  List.replicate (16 - (natHex n).length) '0' ++ natHex n

-- '%-3d' applied after '#': left-justify in a field of width 3.
def padTo3 (l : List Char) : List Char := l ++ List.replicate (3 - l.length) ' '

-- ### FrameColorizer.length (src/colour_filter.py lines 135-157)
--
--     start = 0
--     term_seq_len = 0
--     while True:
--         begin = colored_string.find('\033', start)
--         if begin == -1: break
--         end = colored_string.find('m', begin)
--         if end == -1:
--             end = len(s)          # NameError: the name `s` is unbound
--         term_seq_len += end - begin + 1
--         start = end
--     return len(colored_string) - term_seq_len
--
-- `str.find(c, start)` (first index of c at position >= start, or -1) is
-- modelled with Option Nat.  The while loop is embedded with fuel; the
-- fuel never runs out because `start` strictly increases each iteration
-- (proved below via the equivalence with the structural scan scanExcl).
-- The branch where `find('m', begin)` fails evaluates `len(s)` with `s`
-- unbound, a NameError; that outcome is modelled as `none`.

def findChar : List Char → Char → Option Nat
  | [], _ => none
  | x :: xs, c => if x = c then some 0 else (findChar xs c).map (· + 1)

def findCharFrom (s : List Char) (c : Char) (start : Nat) : Option Nat :=
  match findChar (s.drop start) c with
  | none => none
  | some i => some (start + i)

def lengthLoop (s : List Char) : Nat → Nat → Nat → Option Nat
  | 0, _, _ => none
  | fuel + 1, start, term =>
    match findCharFrom s '\x1b' start with
    | none => some (s.length - term)
    | some b =>
      match findCharFrom s 'm' b with
      | none => none
      | some e => lengthLoop s fuel e (term + (e - b + 1))

-- FrameColorizer.length itself.  `none` models the NameError raised on an
-- unterminated escape sequence (the fuel is provably sufficient).
def lengthImpl (s : List Char) : Option Nat := lengthLoop s (s.length + 1) 0 0

-- A structural two-mode scan counting the characters excluded as part of
-- escape sequences; used as a proof-friendly characterisation of the
-- find-based loop above.  Mode `true` means "inside an escape sequence".
def scanExcl : Bool → List Char → Option Nat
  | false, [] => some 0
  | false, c :: cs => if c = '\x1b' then (scanExcl true cs).map (· + 1) else scanExcl false cs
  | true, [] => none
  | true, c :: cs =>
    if c = 'm' then (scanExcl false cs).map (· + 1) else (scanExcl true cs).map (· + 1)

-- ### Python string helpers used by FrameColorizer.function

-- Does `p` occur at the head of `l`?
def leadsWith : List Char → List Char → Bool
  | [], _ => true
  | _ :: _, [] => false
  | p :: ps, c :: cs => p = c && leadsWith ps cs

-- str.find(sub): index of the first occurrence of `pat`, or -1.
def pyFindAux (pat : List Char) : List Char → Nat → Int
  | [], i => if leadsWith pat [] then (i : Int) else -1
  | c :: t, i => if leadsWith pat (c :: t) then (i : Int) else pyFindAux pat t (i + 1)

def pyFind (s pat : List Char) : Int := pyFindAux pat s 0

-- s[:i] with a possibly negative bound, as produced by str.find: a
-- negative index counts from the end (so s[:-1] drops the last character).
def pySliceTo (s : List Char) (i : Int) : List Char :=
  if 0 ≤ i then s.take i.toNat else s.take ((s.length : Int) + i).toNat

def isPySpace (c : Char) : Bool :=
  c = ' ' || c = '\t' || c = '\n' || c = '\r' || c = '\x0b' || c = '\x0c'

-- str.strip()
def pyStrip (s : List Char) : List Char :=
  ((s.dropWhile isPySpace).reverse.dropWhile isPySpace).reverse

-- str.rsplit(c, 1): split at the last occurrence of the character `c`.
-- `none` models the one-element result (no occurrence of `c`).
def breakLast (c : Char) : List Char → Option (List Char × List Char)
  | [] => none
  | x :: xs =>
    match breakLast c xs with
    | some (a, b) => some (x :: a, b)
    | none => if x = c then some ([], xs) else none

-- Numeric value of an ASCII decimal digit, none for anything else.
def digitVal (c : Char) : Option Nat :=
  if '0' ≤ c && c ≤ '9' then some (c.toNat - '0'.toNat) else none

def digitsToNat : List Char → Option Nat → Option Nat
  | [], acc => acc
  | c :: cs, acc =>
    match digitVal c, acc with
    | some d, some a => digitsToNat cs (some (a * 10 + d))
    | some d, none => digitsToNat cs (some d)
    | none, _ => none

-- int(s) for base 10: optional surrounding whitespace, optional sign, a
-- nonempty run of decimal digits; `none` models ValueError.  (Python's
-- int() additionally accepts underscore digit separators and non-ASCII
-- digits; those inputs do not arise in this development.)
def pyParseInt (s : List Char) : Option Int :=
  match pyStrip s with
  | '+' :: ds => (digitsToNat ds none).map (fun n => (n : Int))
  | '-' :: ds => (digitsToNat ds none).map (fun n => -(n : Int))
  | ds => (digitsToNat ds none).map (fun n => (n : Int))

-- hex(n)
def pyHex (n : Int) : List Char :=
  if n < 0 then '-' :: '0' :: 'x' :: natHex n.natAbs
  else '0' :: 'x' :: natHex n.toNat

-- ### FrameColorizer.function, numeric-address branch
-- (src/colour_filter.py lines 95-117).  The host text returned by
-- `info symbol` is the input; the returned Bool reports whether the label
-- was wrapped in the function-name colour span ('\033[1;34m' ... '\033[0m'),
-- which happens exactly on a fully successful parse.
--
--     name = symbol[:symbol.find('in section')].strip()
--     parts = name.rsplit(' ', 1)
--     if len(parts) == 1: return name
--     try: offset = hex(int(parts[1]))
--     except ValueError: return name
--     return '\033[1;34m' + parts[0] + ' ' + offset + '\033[0m'

def resolveByAddress (symbol : List Char) : List Char × Bool :=
  let name := pyStrip (pySliceTo symbol (pyFind symbol (chars "in section")))
  match breakLast ' ' name with
  | none => (name, false)
  | some (pre, tail) =>
    match pyParseInt tail with
    | none => (name, false)
    | some n =>
      (chars "\x1b[1;34m" ++ pre ++ ' ' :: pyHex n ++ chars "\x1b[0m", true)

-- ### Frame model
--
-- Host-supplied per-frame data (the gdb FrameDecorator interface).  The
-- printed value text of each symbol is stored with the symbol, since the
-- host computes it from the frame.

structure Sym where
  name : List Char
  is_argument : Bool
  value : List Char
deriving DecidableEq

-- A lexical block: its function (if known), its symbols, its parent.
inductive Block where
  | mk (function : Option (List Char)) (syms : List Sym) (superblock : Option Block)

def Block.function : Block → Option (List Char)
  | .mk f _ _ => f

def Block.syms : Block → List Sym
  | .mk _ s _ => s

def Block.superblock : Block → Option Block
  | .mk _ _ p => p

-- The function attribute is either a symbolic name or a raw numeric
-- address; in the numeric case the host's `info symbol` response text is
-- carried alongside, modelling the gdb.execute call.
inductive FuncRef where
  | symbolic (name : List Char)
  | numeric (addr : Nat) (lookup : List Char)

structure Frame where
  address : Nat
  function : FuncRef
  -- none models frame.block() raising RuntimeError (caught in the source).
  blockLookup : Option Block
  filename : List Char
  line : Option Nat

-- ### FrameColorizer.frame_args (src/colour_filter.py lines 65-88)

-- The block-ascent while loop: climb superblocks until one with a known
-- function is found.
def ascend : Block → Option Block
  | .mk f s none => if f.isSome then some (.mk f s none) else none
  | .mk f s (some p) => if f.isSome then some (.mk f s (some p)) else ascend p

-- The `for sym in block` loop body, with its accumulator.
def argsLoop : List Sym → List (List Char) → List (List Char)
  | [], acc => acc
  | s :: rest, acc =>
    if s.is_argument = false then argsLoop rest acc
    else argsLoop rest (acc ++ [if s.value = [] then s.name else s.name ++ '=' :: s.value])

def frameArgs (fr : Frame) : List Char :=
  match fr.blockLookup with
  | none => []
  | some b =>
    match ascend b with
    | none => []
    | some fb => List.intercalate (chars ", ") (argsLoop fb.syms [])

-- ### The remaining attribute renderers (lines 54-63, 90-133)

def functionOf (f : FuncRef) : List Char :=
  match f with
  | .symbolic name => chars "\x1b[1;34m" ++ name ++ chars "\x1b[0m"
  | .numeric _ lookup => (resolveByAddress lookup).1

-- '\033[1;37m#%-3d\033[0m' % depth
def depthStr (d : Nat) : List Char :=
  chars "\x1b[1;37m#" ++ padTo3 (natDec d) ++ chars "\x1b[0m"

-- '\033[1;30m0x%016x\033[0m' % address
def addressStr (a : Nat) : List Char :=
  chars "\x1b[1;30m0x" ++ hexPad16 a ++ chars "\x1b[0m"

-- '\033[0;36m%s\033[0m' % filename
def filenameStr (f : Frame) : List Char :=
  chars "\x1b[0;36m" ++ f.filename ++ chars "\x1b[0m"

-- '\033[0;35m:%d\033[0m' % value if value else ''  (0 and None are falsy)
def lineStr (f : Frame) : List Char :=
  match f.line with
  | none => []
  | some v => if v = 0 then [] else chars "\x1b[0;35m:" ++ natDec v ++ chars "\x1b[0m"

def SCREEN_WIDTH : Nat := 160

def getScreenWidth : Nat := SCREEN_WIDTH

-- ### FrameColorizer.__str__ (src/colour_filter.py lines 30-52)

def part1 (d a : Nat) (showAddr : Bool) : List Char :=
  depthStr d ++ (if showAddr then chars "  " ++ addressStr a ++ chars " in " else chars " ")

def part2 (f : Frame) : List Char :=
  functionOf f.function ++ chars " \x1b[1;37m(" ++ frameArgs f ++ chars ")\x1b[0m"

def part3 (f : Frame) : List Char := filenameStr f ++ lineStr f

def assembled (d : Nat) (f : Frame) (showAddr : Bool) : List Char :=
  part1 d f.address showAddr ++ part2 f ++ chars " at " ++ part3 f

-- `none` propagates the NameError from self.length(part1) (never reached,
-- as proved below: part1 contains only well-terminated escape sequences).
def render (d : Nat) (f : Frame) (showAddr : Bool) : Option (List Char) :=
  if (assembled d f showAddr).length > getScreenWidth then
    -- shift_width = int(self.length(part1)) - 1 - 3 * int(is_print_address);
    -- a negative shift yields an empty space run (Python ' ' * negative).
    match lengthImpl (part1 d f.address showAddr) with
    | none => none
    | some l1 =>
      some (part1 d f.address showAddr ++ part2 f ++
        '\n' :: (List.replicate ((l1 : Int) - 1 - (if showAddr then 3 else 0)).toNat ' ' ++
          chars " at " ++ part3 f))
  else
    some (assembled d f showAddr)

-- ### FilterProxy (src/colour_filter.py lines 160-178)
--
-- The generator pairing frames with depth indices is modelled as the list
-- of not-yet-consumed (depth, frame) pairs; the output channel as the list
-- of strings written by print calls, in order.

structure EmitState where
  frames : List (Nat × Frame)
  out : List (List Char)

-- FilterProxy.__init__: enumerate(frames) wrapped into colorizers.
def initState (frames : List Frame) : EmitState :=
  { frames := frames.enum, out := [] }

-- print(s): a single write of s followed by a newline.
def pyPrint (s : List Char) (st : EmitState) : EmitState :=
  { st with out := st.out ++ [s ++ ['\n']] }

-- str(frame) for every remaining frame; `none` if any __str__ raises.
def renderAll (sa : Bool) : List (Nat × Frame) → Option (List (List Char))
  | [] => some []
  | (i, f) :: rest =>
    match render i f sa with
    | none => none
    | some s => (renderAll sa rest).map (s :: ·)

-- unroll_stack: print('\n'.join(str(frame) for frame in self.frames)).
-- Draining the generator leaves no frames behind.
def unrollStack (sa : Bool) (st : EmitState) : Option EmitState :=
  (renderAll sa st.frames).map
    (fun outs => pyPrint (List.intercalate ['\n'] outs) { st with frames := [] })

-- __next__ either raises StopIteration (the normal outcome) or lets an
-- exception from unroll_stack escape.
inductive NextResult where
  | stopIteration
  | error
deriving DecidableEq

def nextOp (sa : Bool) (st : EmitState) : NextResult × EmitState :=
  match unrollStack sa st with
  | none => (NextResult.error, st)
  | some st2 => (NextResult.stopIteration, st2)

def renderOut (d : Nat) (f : Frame) (sa : Bool) : List Char := (render d f sa).getD []

def backtraceText (sa : Bool) (frames : List Frame) : List Char :=
  List.intercalate ['\n'] (frames.enum.map (fun p => renderOut p.1 p.2 sa))

-- ### Segment decomposition of strings with well-formed escape sequences
--
-- A string built from plain segments (no escape character) and well-formed
-- SGR spans `'\x1b' <body> 'm'` (with no escape character and no 'm' in the
-- body).  This is the input class of the visible-length properties.

inductive Seg where
  | plain (s : List Char)
  | span (body : List Char)

def Seg.flat : Seg → List Char
  | .plain s => s
  | .span b => '\x1b' :: b ++ ['m']

def Seg.ok : Seg → Prop
  | .plain s => '\x1b' ∉ s
  | .span b => '\x1b' ∉ b ∧ 'm' ∉ b

instance (g : Seg) : Decidable (Seg.ok g) :=
  match g with
  | .plain s => inferInstanceAs (Decidable ('\x1b' ∉ s))
  | .span b => inferInstanceAs (Decidable ('\x1b' ∉ b ∧ 'm' ∉ b))

-- Visible characters contributed by a segment.
def Seg.vis : Seg → Nat
  | .plain s => s.length
  | .span _ => 0

-- Excluded (escape) characters contributed by a segment.
def Seg.excl : Seg → Nat
  | .plain _ => 0
  | .span b => b.length + 2

def flatSegs : List Seg → List Char
  | [] => []
  | g :: t => g.flat ++ flatSegs t

def visSegs : List Seg → Nat
  | [] => 0
  | g :: t => g.vis + visSegs t

def exclSegs : List Seg → Nat
  | [] => 0
  | g :: t => g.excl + exclSegs t

-- The segment decomposition of part1 (first-line prefix).
def part1Segs (d a : Nat) : Bool → List Seg
  | true =>
    [Seg.span (chars "[1;37"), Seg.plain ('#' :: padTo3 (natDec d)), Seg.span (chars "[0"),
     Seg.plain (chars "  "), Seg.span (chars "[1;30"),
     Seg.plain ('0' :: 'x' :: hexPad16 a), Seg.span (chars "[0"),
     Seg.plain (chars " in ")]
  | false =>
    [Seg.span (chars "[1;37"), Seg.plain ('#' :: padTo3 (natDec d)), Seg.span (chars "[0"),
     Seg.plain (chars " ")]

-- ### Concrete frames used in counterexamples and witnesses

-- Visible length 132 but raw length 176: wraps although visibly short.
def frameC1 : Frame :=
  { address := 0
    function := FuncRef.symbolic (List.replicate 20 'g')
    blockLookup := none
    filename := List.replicate 100 'f'
    line := none }

-- A block with two arguments (one with empty printed value) and a local.
def smallBlock : Block :=
  Block.mk (some (chars "main"))
    [ { name := chars "x", is_argument := true, value := chars "5" }
    , { name := chars "y", is_argument := true, value := [] }
    , { name := chars "t", is_argument := false, value := chars "9" } ] none

-- A short frame with two arguments, one of them with empty printed value.
def frameSmall : Frame :=
  { address := 0
    function := FuncRef.symbolic (chars "main")
    blockLookup := some smallBlock
    filename := chars "prog.c"
    line := some 42 }

-- Visible length 173 > 160: genuinely wraps.
def frameLong : Frame :=
  { address := 0
    function := FuncRef.symbolic (chars "g")
    blockLookup := none
    filename := List.replicate 160 'f'
    line := none }

-- ## Character-class facts about the numeric renderers

theorem decDigitChar_safe (n : Nat) :
    decDigitChar n ≠ '\x1b' ∧ decDigitChar n ≠ 'm' ∧ decDigitChar n ≠ '\n' := by
  unfold decDigitChar; split <;> decide

theorem hexDigitChar_safe (n : Nat) :
    hexDigitChar n ≠ '\x1b' ∧ hexDigitChar n ≠ 'm' ∧ hexDigitChar n ≠ '\n' := by
  unfold hexDigitChar; split <;> decide

theorem natDecAux_safe (fuel : Nat) :
    ∀ n, ∀ c ∈ natDecAux fuel n, c ≠ '\x1b' ∧ c ≠ 'm' ∧ c ≠ '\n' := by
  induction fuel with
  | zero => intro n c hc; simp [natDecAux] at hc
  | succ fuel ih =>
    intro n c hc
    unfold natDecAux at hc
    by_cases h : n < 10
    · rw [if_pos h] at hc
      simp only [List.mem_singleton] at hc
      exact hc ▸ decDigitChar_safe n
    · rw [if_neg h] at hc
      rcases List.mem_append.mp hc with h1 | h1
      · exact ih (n / 10) c h1
      · simp only [List.mem_singleton] at h1
        exact h1 ▸ decDigitChar_safe (n % 10)

theorem natDec_safe (n : Nat) :
    ∀ c ∈ natDec n, c ≠ '\x1b' ∧ c ≠ 'm' ∧ c ≠ '\n' :=
  natDecAux_safe (n + 1) n

theorem natHexAux_safe (fuel : Nat) :
    ∀ n, ∀ c ∈ natHexAux fuel n, c ≠ '\x1b' ∧ c ≠ 'm' ∧ c ≠ '\n' := by
  induction fuel with
  | zero => intro n c hc; simp [natHexAux] at hc
  | succ fuel ih =>
    intro n c hc
    unfold natHexAux at hc
    by_cases h : n < 16
    · rw [if_pos h] at hc
      simp only [List.mem_singleton] at hc
      exact hc ▸ hexDigitChar_safe n
    · rw [if_neg h] at hc
      rcases List.mem_append.mp hc with h1 | h1
      · exact ih (n / 16) c h1
      · simp only [List.mem_singleton] at h1
        exact h1 ▸ hexDigitChar_safe (n % 16)

theorem natHex_safe (n : Nat) :
    ∀ c ∈ natHex n, c ≠ '\x1b' ∧ c ≠ 'm' ∧ c ≠ '\n' :=
  natHexAux_safe (n + 1) n

theorem hexPad16_safe (n : Nat) :
    ∀ c ∈ hexPad16 n, c ≠ '\x1b' ∧ c ≠ 'm' ∧ c ≠ '\n' := by
  intro c hc
  rcases List.mem_append.mp hc with h1 | h1
  · have := List.eq_of_mem_replicate h1
    exact this ▸ (by decide)
  · exact natHex_safe n c h1

theorem padTo3_safe {l : List Char}
    (h : ∀ c ∈ l, c ≠ '\x1b' ∧ c ≠ 'm' ∧ c ≠ '\n') :
    ∀ c ∈ padTo3 l, c ≠ '\x1b' ∧ c ≠ 'm' ∧ c ≠ '\n' := by
  intro c hc
  rcases List.mem_append.mp hc with h1 | h1
  · exact h c h1
  · have := List.eq_of_mem_replicate h1
    exact this ▸ (by decide)

-- ## Facts about findChar: relating str.find to the string's structure

theorem findChar_none {c : Char} :
    ∀ {l : List Char}, findChar l c = none → c ∉ l := by
  intro l
  induction l with
  | nil => intro _ h; simp at h
  | cons x xs ih =>
    intro h hm
    unfold findChar at h
    by_cases hx : x = c
    · simp [hx] at h
    · rw [if_neg hx] at h
      rcases List.mem_cons.mp hm with h1 | h1
      · exact hx h1.symm
      · cases hfc : findChar xs c with
        | none => exact ih hfc h1
        | some i => rw [hfc] at h; simp at h

theorem findChar_some {c : Char} :
    ∀ {l : List Char} {i : Nat}, findChar l c = some i →
      ∃ pre rest, l = pre ++ c :: rest ∧ c ∉ pre ∧ i = pre.length := by
  intro l
  induction l with
  | nil => intro i h; simp [findChar] at h
  | cons x xs ih =>
    intro i h
    unfold findChar at h
    by_cases hx : x = c
    · rw [if_pos hx] at h
      simp only [Option.some.injEq] at h
      exact ⟨[], xs, by simp [hx], by simp, by simp [← h]⟩
    · rw [if_neg hx] at h
      cases hfc : findChar xs c with
      | none => rw [hfc] at h; simp at h
      | some j =>
        rw [hfc] at h
        simp only [Option.map_some', Option.some.injEq] at h
        obtain ⟨pre, rest, hl, hnp, hj⟩ := ih hfc
        refine ⟨x :: pre, rest, by simp [hl], ?_, by simp [← h, hj]⟩
        intro hmem
        rcases List.mem_cons.mp hmem with h1 | h1
        · exact hx h1.symm
        · exact hnp h1

-- ## Facts about the structural scan

theorem scanExcl_false_cons (c : Char) (cs : List Char) :
    scanExcl false (c :: cs) =
      if c = '\x1b' then (scanExcl true cs).map (· + 1) else scanExcl false cs := rfl

theorem scanExcl_true_cons (c : Char) (cs : List Char) :
    scanExcl true (c :: cs) =
      if c = 'm' then (scanExcl false cs).map (· + 1)
      else (scanExcl true cs).map (· + 1) := rfl

theorem scanExcl_false_append (l : List Char) :
    ∀ pre : List Char, '\x1b' ∉ pre → scanExcl false (pre ++ l) = scanExcl false l := by
  intro pre
  induction pre with
  | nil => intro _; rfl
  | cons x xs ih =>
    intro h
    have hx : ¬(x = '\x1b') := fun hh => h (hh ▸ List.mem_cons_self x xs)
    have hxs : '\x1b' ∉ xs := fun hh => h (List.mem_cons_of_mem _ hh)
    rw [List.cons_append, scanExcl_false_cons, if_neg hx]
    exact ih hxs

theorem scanExcl_true_append (rest : List Char) :
    ∀ mid : List Char, 'm' ∉ mid →
      scanExcl true (mid ++ 'm' :: rest) =
        (scanExcl false rest).map (· + (mid.length + 1)) := by
  intro mid
  induction mid with
  | nil =>
    intro _
    rw [List.nil_append, scanExcl_true_cons, if_pos rfl]
    simp
  | cons x xs ih =>
    intro h
    have hx : ¬(x = 'm') := fun hh => h (hh ▸ List.mem_cons_self x xs)
    have hxs : 'm' ∉ xs := fun hh => h (List.mem_cons_of_mem _ hh)
    rw [List.cons_append, scanExcl_true_cons, if_neg hx, ih hxs]
    cases scanExcl false rest with
    | none => simp
    | some a => simp; omega

theorem scanExcl_true_none :
    ∀ mid : List Char, 'm' ∉ mid → scanExcl true mid = none := by
  intro mid
  induction mid with
  | nil => intro _; rfl
  | cons x xs ih =>
    intro h
    have hx : ¬(x = 'm') := fun hh => h (hh ▸ List.mem_cons_self x xs)
    have hxs : 'm' ∉ xs := fun hh => h (List.mem_cons_of_mem _ hh)
    rw [scanExcl_true_cons, if_neg hx, ih hxs]
    rfl

theorem scanExcl_false_noesc :
    ∀ l : List Char, '\x1b' ∉ l → scanExcl false l = some 0 := by
  intro l h
  have := scanExcl_false_append [] l h
  simpa using this

-- ## Equivalence of the find-based loop with the structural scan
--
-- This also discharges the fuel: for fuel > length - start the loop's
-- result does not depend on the fuel.

theorem findCharFrom_eq_none {s : List Char} {c : Char} {start : Nat}
    (h : findChar (s.drop start) c = none) : findCharFrom s c start = none := by
  unfold findCharFrom; rw [h]

theorem findCharFrom_eq_some {s : List Char} {c : Char} {start i : Nat}
    (h : findChar (s.drop start) c = some i) :
    findCharFrom s c start = some (start + i) := by
  unfold findCharFrom; rw [h]

theorem lengthLoop_succ (s : List Char) (fuel start term : Nat) :
    lengthLoop s (fuel + 1) start term =
      match findCharFrom s '\x1b' start with
      | none => some (s.length - term)
      | some b =>
        match findCharFrom s 'm' b with
        | none => none
        | some e => lengthLoop s fuel e (term + (e - b + 1)) := rfl

theorem lengthLoop_succ_noesc {s : List Char} {fuel start term : Nat}
    (h : findCharFrom s '\x1b' start = none) :
    lengthLoop s (fuel + 1) start term = some (s.length - term) := by
  simp only [lengthLoop_succ, h]

theorem lengthLoop_succ_nom {s : List Char} {fuel start term b : Nat}
    (hb : findCharFrom s '\x1b' start = some b)
    (hm : findCharFrom s 'm' b = none) :
    lengthLoop s (fuel + 1) start term = none := by
  simp only [lengthLoop_succ, hb, hm]

theorem lengthLoop_succ_step {s : List Char} {fuel start term b e : Nat}
    (hb : findCharFrom s '\x1b' start = some b)
    (hm : findCharFrom s 'm' b = some e) :
    lengthLoop s (fuel + 1) start term = lengthLoop s fuel e (term + (e - b + 1)) := by
  simp only [lengthLoop_succ, hb, hm]

theorem lengthLoop_spec (s : List Char) (fuel : Nat) :
    ∀ start term, start ≤ s.length → s.length < start + fuel →
      lengthLoop s fuel start term =
        (scanExcl false (s.drop start)).map (fun ex => s.length - (term + ex)) := by
  induction fuel with
  | zero =>
    intro start term h1 h2
    exact absurd h2 (by omega)
  | succ fuel ih =>
    intro start term h1 h2
    cases hfc : findChar (s.drop start) '\x1b' with
    | none =>
      rw [lengthLoop_succ_noesc (findCharFrom_eq_none hfc)]
      rw [scanExcl_false_noesc _ (findChar_none hfc)]
      simp
    | some i =>
      have hb := findCharFrom_eq_some hfc
      obtain ⟨pre, tail, hdec, hpre, hi⟩ := findChar_some hfc
      subst hi
      have hdropb : s.drop (start + pre.length) = '\x1b' :: tail := by
        have h3 : (s.drop start).drop pre.length = s.drop (start + pre.length) :=
          List.drop_drop pre.length start s
        rw [hdec, List.drop_left] at h3
        exact h3.symm
      cases hfm : findChar (s.drop (start + pre.length)) 'm' with
      | none =>
        rw [lengthLoop_succ_nom hb (findCharFrom_eq_none hfm)]
        have hmn := findChar_none hfm
        rw [hdropb] at hmn
        have hmtail : 'm' ∉ tail := fun hh => hmn (List.mem_cons_of_mem _ hh)
        rw [hdec, scanExcl_false_append _ _ hpre, scanExcl_false_cons,
          if_pos rfl, scanExcl_true_none tail hmtail]
        rfl
      | some j =>
        rw [lengthLoop_succ_step hb (findCharFrom_eq_some hfm)]
        obtain ⟨pre2, rest2, hdec2, hpre2, hj⟩ := findChar_some hfm
        rw [hdropb] at hdec2
        cases pre2 with
        | nil =>
          rw [List.nil_append] at hdec2
          exact absurd (List.head_eq_of_cons_eq hdec2) (by decide)
        | cons hd mid =>
          rw [List.cons_append] at hdec2
          have hhd : '\x1b' = hd := List.head_eq_of_cons_eq hdec2
          have htl : tail = mid ++ 'm' :: rest2 := List.tail_eq_of_cons_eq hdec2
          subst htl
          have hmmid : 'm' ∉ mid := fun hh => hpre2 (hhd ▸ List.mem_cons_of_mem _ hh)
          have hjlen : j = mid.length + 1 := by rw [hj]; simp
          subst hjlen
          have hlb := congrArg List.length hdropb
          simp only [List.length_drop, List.length_cons, List.length_append] at hlb
          have hdrope : s.drop (start + pre.length + (mid.length + 1)) = 'm' :: rest2 := by
            rw [← List.drop_drop (mid.length + 1) (start + pre.length) s, hdropb,
              List.drop_succ_cons, List.drop_left]
          rw [ih (start + pre.length + (mid.length + 1))
            (term + (start + pre.length + (mid.length + 1) - (start + pre.length) + 1))
            (by omega) (by omega)]
          rw [hdrope, scanExcl_false_cons, if_neg (by decide)]
          rw [hdec, scanExcl_false_append _ _ hpre, scanExcl_false_cons,
            if_pos rfl, scanExcl_true_append rest2 mid hmmid]
          cases scanExcl false rest2 with
          | none => simp
          | some a =>
            simp only [Option.map_some', Option.some.injEq]
            omega

-- FrameColorizer.length agrees with the structural scan on every input;
-- in particular its result never depends on the fuel.
theorem lengthImpl_eq_scan (s : List Char) :
    lengthImpl s = (scanExcl false s).map (fun ex => s.length - ex) := by
  unfold lengthImpl
  rw [lengthLoop_spec s (s.length + 1) 0 0 (by omega) (by omega)]
  simp

theorem lengthImpl_le {s : List Char} {v : Nat} (h : lengthImpl s = some v) :
    v ≤ s.length := by
  rw [lengthImpl_eq_scan] at h
  cases hs : scanExcl false s with
  | none => rw [hs] at h; simp at h
  | some ex => rw [hs] at h; simp at h; omega

-- ## Visible length of segment-structured strings

theorem scanExcl_flatSegs :
    ∀ segs : List Seg, (∀ g ∈ segs, Seg.ok g) →
      scanExcl false (flatSegs segs) = some (exclSegs segs) := by
  intro segs
  induction segs with
  | nil => intro _; rfl
  | cons g t ih =>
    intro h
    have hg : Seg.ok g := h g (List.mem_cons_self g t)
    have ht : ∀ x ∈ t, Seg.ok x := fun x hx => h x (List.mem_cons_of_mem _ hx)
    cases g with
    | plain s =>
      show scanExcl false (s ++ flatSegs t) = some (0 + exclSegs t)
      rw [scanExcl_false_append _ _ hg, ih ht]
      simp
    | span b =>
      show scanExcl false (('\x1b' :: b ++ ['m']) ++ flatSegs t) = _
      have hb : 'm' ∉ b := hg.2
      have hassoc : ('\x1b' :: b ++ ['m']) ++ flatSegs t = '\x1b' :: (b ++ 'm' :: flatSegs t) := by
        simp
      rw [hassoc, scanExcl_false_cons, if_pos rfl, scanExcl_true_append _ _ hb, ih ht]
      show some (exclSegs t + (b.length + 1) + 1) = some (b.length + 2 + exclSegs t)
      simp; omega

theorem flatSegs_length :
    ∀ segs : List Seg, (flatSegs segs).length = visSegs segs + exclSegs segs := by
  intro segs
  induction segs with
  | nil => rfl
  | cons g t ih =>
    cases g with
    | plain s =>
      simp [flatSegs, visSegs, exclSegs, Seg.flat, Seg.vis, Seg.excl, ih]
      omega
    | span b =>
      simp [flatSegs, visSegs, exclSegs, Seg.flat, Seg.vis, Seg.excl, ih]
      omega

-- A character of a flattened segment list lies in some segment.
theorem flatSegs_mem {c : Char} :
    ∀ segs : List Seg, c ∈ flatSegs segs → ∃ g, g ∈ segs ∧ c ∈ g.flat := by
  intro segs
  induction segs with
  | nil => intro h; simp [flatSegs] at h
  | cons g t ih =>
    intro h
    rcases List.mem_append.mp h with h1 | h1
    · exact ⟨g, List.mem_cons_self g t, h1⟩
    · obtain ⟨g2, hg2, hc2⟩ := ih h1
      exact ⟨g2, List.mem_cons_of_mem _ hg2, hc2⟩

-- The visible length of a string made of plain text and well-formed SGR
-- spans is the total length of the plain text.
theorem lengthImpl_flatSegs (segs : List Seg) (h : ∀ g ∈ segs, Seg.ok g) :
    lengthImpl (flatSegs segs) = some (visSegs segs) := by
  rw [lengthImpl_eq_scan, scanExcl_flatSegs segs h, flatSegs_length segs]
  simp

-- ## part1 (the first-line prefix) in segment form

theorem part1_eq_flatSegs (d a : Nat) (sa : Bool) :
    part1 d a sa = flatSegs (part1Segs d a sa) := by
  cases sa <;>
    simp [part1, part1Segs, depthStr, addressStr, hexPad16, flatSegs, Seg.flat, chars]

theorem mem_pad_ne (d : Nat) : '\x1b' ∉ '#' :: padTo3 (natDec d) := by
  intro hc
  rcases List.mem_cons.mp hc with h | h
  · exact absurd h (by decide)
  · exact (padTo3_safe (natDec_safe d) _ h).1 rfl

theorem mem_hex_ne (a : Nat) : '\x1b' ∉ '0' :: 'x' :: hexPad16 a := by
  intro hc
  rcases List.mem_cons.mp hc with h | h
  · exact absurd h (by decide)
  · rcases List.mem_cons.mp h with h2 | h2
    · exact absurd h2 (by decide)
    · exact (hexPad16_safe a _ h2).1 rfl

theorem part1Segs_ok (d a : Nat) (sa : Bool) :
    ∀ g ∈ part1Segs d a sa, Seg.ok g := by
  intro g hg
  cases sa with
  | false =>
    simp only [part1Segs, List.mem_cons, List.not_mem_nil, or_false] at hg
    rcases hg with rfl | rfl | rfl | rfl
    · decide
    · exact mem_pad_ne d
    · decide
    · decide
  | true =>
    simp only [part1Segs, List.mem_cons, List.not_mem_nil, or_false] at hg
    rcases hg with rfl | rfl | rfl | rfl | rfl | rfl | rfl | rfl
    · decide
    · exact mem_pad_ne d
    · decide
    · decide
    · decide
    · exact mem_hex_ne a
    · decide
    · decide

-- part1 always has a defined visible length: every escape sequence in it
-- is well terminated, so self.length(part1) cannot hit the broken branch.
theorem part1_lengthImpl (d a : Nat) (sa : Bool) :
    lengthImpl (part1 d a sa) = some (visSegs (part1Segs d a sa)) := by
  rw [part1_eq_flatSegs]
  exact lengthImpl_flatSegs _ (part1Segs_ok d a sa)

theorem mem_pad_ne_nl (d : Nat) : '\n' ∉ '#' :: padTo3 (natDec d) := by
  intro hc
  rcases List.mem_cons.mp hc with h | h
  · exact absurd h (by decide)
  · exact (padTo3_safe (natDec_safe d) _ h).2.2 rfl

theorem mem_hex_ne_nl (a : Nat) : '\n' ∉ '0' :: 'x' :: hexPad16 a := by
  intro hc
  rcases List.mem_cons.mp hc with h | h
  · exact absurd h (by decide)
  · rcases List.mem_cons.mp h with h2 | h2
    · exact absurd h2 (by decide)
    · exact (hexPad16_safe a _ h2).2.2 rfl

theorem part1_no_newline (d a : Nat) (sa : Bool) : '\n' ∉ part1 d a sa := by
  intro hmem
  rw [part1_eq_flatSegs] at hmem
  obtain ⟨g, hg, hc⟩ := flatSegs_mem _ hmem
  cases sa with
  | false =>
    simp only [part1Segs, List.mem_cons, List.not_mem_nil, or_false] at hg
    rcases hg with rfl | rfl | rfl | rfl
    · exact absurd hc (by decide)
    · exact mem_pad_ne_nl d (by simpa [Seg.flat] using hc)
    · exact absurd hc (by decide)
    · exact absurd hc (by decide)
  | true =>
    simp only [part1Segs, List.mem_cons, List.not_mem_nil, or_false] at hg
    rcases hg with rfl | rfl | rfl | rfl | rfl | rfl | rfl | rfl
    · exact absurd hc (by decide)
    · exact mem_pad_ne_nl d (by simpa [Seg.flat] using hc)
    · exact absurd hc (by decide)
    · exact absurd hc (by decide)
    · exact absurd hc (by decide)
    · exact mem_hex_ne_nl a (by simpa [Seg.flat] using hc)
    · exact absurd hc (by decide)
    · exact absurd hc (by decide)

-- ## Behaviour of render

theorem render_nowrap {d : Nat} {f : Frame} {sa : Bool}
    (h : ¬((assembled d f sa).length > getScreenWidth)) :
    render d f sa = some (assembled d f sa) := by
  unfold render
  rw [if_neg h]

theorem render_wrap {d : Nat} {f : Frame} {sa : Bool} {v1 : Nat}
    (h : (assembled d f sa).length > getScreenWidth)
    (h1 : lengthImpl (part1 d f.address sa) = some v1) :
    render d f sa = some (part1 d f.address sa ++ part2 f ++
      '\n' :: (List.replicate (v1 - 1 - (if sa then 3 else 0)) ' ' ++
        chars " at " ++ part3 f)) := by
  unfold render
  rw [if_pos h, h1]
  have hs : ((v1 : Int) - 1 - (if sa then (3 : Int) else 0)).toNat
      = v1 - 1 - (if sa then 3 else 0) := by
    cases sa
    · show ((v1 : Int) - 1 - 0).toNat = v1 - 1 - 0
      omega
    · show ((v1 : Int) - 1 - 3).toNat = v1 - 1 - 3
      omega
  dsimp only
  rw [hs]

theorem render_isSome (d : Nat) (f : Frame) (sa : Bool) : (render d f sa).isSome := by
  by_cases h : (assembled d f sa).length > getScreenWidth
  · rw [render_wrap h (part1_lengthImpl d f.address sa)]; rfl
  · rw [render_nowrap h]; rfl

-- ## Behaviour of the emitter

theorem renderAll_eq (sa : Bool) :
    ∀ l : List (Nat × Frame),
      renderAll sa l = some (l.map (fun p => renderOut p.1 p.2 sa)) := by
  intro l
  induction l with
  | nil => rfl
  | cons p rest ih =>
    obtain ⟨i, f⟩ := p
    have hs := render_isSome i f sa
    cases hr : render i f sa with
    | none => rw [hr] at hs; simp at hs
    | some s => simp [renderAll, hr, ih, renderOut]

theorem unrollStack_eq (sa : Bool) (st : EmitState) :
    unrollStack sa st = some (pyPrint (List.intercalate ['\n']
      (st.frames.map (fun p => renderOut p.1 p.2 sa))) { st with frames := [] }) := by
  unfold unrollStack
  rw [renderAll_eq]
  rfl

-- __next__ always ends in StopIteration, and its one print is the joined
-- rendering of all frames that were still pending.
theorem nextOp_eq (sa : Bool) (st : EmitState) :
    nextOp sa st = (NextResult.stopIteration,
      pyPrint (List.intercalate ['\n'] (st.frames.map (fun p => renderOut p.1 p.2 sa)))
        { st with frames := [] }) := by
  unfold nextOp
  rw [unrollStack_eq]

-- ## Behaviour of the argument loop

theorem argsLoop_eq :
    ∀ (syms : List Sym) (acc : List (List Char)),
      argsLoop syms acc = acc ++ (syms.filter (fun s => s.is_argument)).map
        (fun s => if s.value = [] then s.name else s.name ++ '=' :: s.value) := by
  intro syms
  induction syms with
  | nil => intro acc; simp [argsLoop]
  | cons s rest ih =>
    intro acc
    unfold argsLoop
    by_cases ha : s.is_argument = false
    · rw [if_pos ha, ih]
      simp [List.filter_cons, ha]
    · rw [if_neg ha, ih]
      have ha2 : s.is_argument = true := by
        revert ha; cases s.is_argument <;> simp
      simp [List.filter_cons, ha2]

-- ## Claim C1

/-- Claim C1 counterexample: a frame whose assembled single line has
visible length 132 (not exceeding the budget of 160) is nevertheless
wrapped — the rendered output contains a newline — because the source
compares the raw, escape-inclusive length (176) against the budget. -/
theorem claim1_counterexample :
    lengthImpl (assembled 0 frameC1 false) = some 132 ∧ 132 ≤ getScreenWidth ∧
    '\n' ∈ (render 0 frameC1 false).getD [] := by
  refine ⟨by decide, by decide, by decide⟩

/-- Claim C1 (amended): render decides whether to wrap by the raw,
escape-sequence-inclusive length of the fully assembled single-line
string; if that raw length does not exceed the display budget, render
returns the single line unchanged, with no embedded newline (provided the
host-supplied attribute strings are themselves newline-free). -/
theorem claim1_theorem (d : Nat) (f : Frame) (sa : Bool)
    (hlen : (assembled d f sa).length ≤ getScreenWidth)
    (h2 : '\n' ∉ part2 f) (h3 : '\n' ∉ part3 f) :
    render d f sa = some (assembled d f sa) ∧ '\n' ∉ assembled d f sa := by
  constructor
  · exact render_nowrap (by omega)
  · intro hmem
    simp only [assembled, List.append_assoc, List.mem_append] at hmem
    rcases hmem with h | h | h | h
    · exact part1_no_newline d f.address sa h
    · exact h2 h
    · exact absurd h (by decide)
    · exact h3 h

/-- Claim C1 witness: a concrete short frame renders to its unchanged
single line. -/
theorem claim1_witness :
    render 0 frameSmall false = some (assembled 0 frameSmall false) ∧
    '\n' ∉ assembled 0 frameSmall false :=
  claim1_theorem 0 frameSmall false (by decide) (by decide) (by decide)

-- ## Claim C2

/-- Claim C2: on an input containing an escape start with no terminating
'm', FrameColorizer.length does not return a value at all — the fallback
branch evaluates `len(s)` where no name `s` is bound, raising NameError
(modelled as none).  The claimed behaviour (return a value at most the
string's length) is what the spec demands; the code fails instead. -/
theorem claim2_theorem : lengthImpl (chars "\x1b[1;3") = none := by decide

-- ## Claim C3

/-- Claim C3 counterexample: for the lookup text
"raise + 272 in section .text of /usr/lib/libc.so.6" the resolved label
is not the claimed coloured "raise 0x110". -/
theorem claim3_counterexample :
    resolveByAddress (chars "raise + 272 in section .text of /usr/lib/libc.so.6")
      ≠ (chars "\x1b[1;34mraise 0x110\x1b[0m", true) := by decide

/-- Claim C3 (amended): the label is the coloured "raise + 0x110" — the
text before the last space ("raise +", which retains the '+' separator)
followed by one space and the lowercase hex offset — with coloured =
true.  rsplit(' ', 1) splits "raise + 272" into ("raise +", "272"), so
the '+' stays in the name part. -/
theorem claim3_theorem :
    resolveByAddress (chars "raise + 272 in section .text of /usr/lib/libc.so.6")
      = (chars "\x1b[1;34mraise + 0x110\x1b[0m", true) := by decide

-- ## Claim C4

/-- Claim C4: when the "in section" marker is absent, str.find returns -1
and the slice symbol[:-1] silently drops the final character, so the
lookup text "??" resolves to the label "?" instead of the claimed whole
text "??" (uncoloured either way).  The invalid-offset fallback half of
the claim does hold: "weird_symbol + notanumber in section .text of lib"
yields the whole unparsed name, uncoloured. -/
theorem claim4_theorem :
    resolveByAddress (chars "??") = (chars "?", false) ∧
    resolveByAddress (chars "weird_symbol + notanumber in section .text of lib")
      = (chars "weird_symbol + notanumber", false) := by decide

-- ## Claim C5

/-- Claim C5: for a frame whose assembled single-line form has visible
length strictly greater than the budget, render wraps: the output is the
first line (prefix and function/arguments part), one newline, then a run
of spaces of count (visible length of the first-line prefix) - 1, minus 3
more when addresses are shown, then " at " and the filename/line suffix;
and (when the host attribute strings are newline-free) the newline is the
only one in the output. -/
theorem claim5_theorem (d : Nat) (f : Frame) (sa : Bool) (v v1 : Nat)
    (hv : lengthImpl (assembled d f sa) = some v)
    (hgt : getScreenWidth < v)
    (hv1 : lengthImpl (part1 d f.address sa) = some v1) :
    render d f sa = some (part1 d f.address sa ++ part2 f ++
      '\n' :: (List.replicate (v1 - 1 - (if sa then 3 else 0)) ' ' ++
        chars " at " ++ part3 f)) ∧
    ('\n' ∉ part2 f → '\n' ∉ part3 f →
      (part1 d f.address sa ++ part2 f ++
        '\n' :: (List.replicate (v1 - 1 - (if sa then 3 else 0)) ' ' ++
          chars " at " ++ part3 f)).count '\n' = 1) := by
  have hraw : getScreenWidth < (assembled d f sa).length :=
    lt_of_lt_of_le hgt (lengthImpl_le hv)
  constructor
  · exact render_wrap hraw hv1
  · intro h2 h3
    have h1 := part1_no_newline d f.address sa
    have hrep : '\n' ∉ List.replicate (v1 - 1 - (if sa then 3 else 0)) ' ' := by
      intro hm
      exact absurd (List.eq_of_mem_replicate hm) (by decide)
    have hat : '\n' ∉ chars " at " := by decide
    simp [List.count_append, List.count_cons, List.count_eq_zero.mpr h1,
      List.count_eq_zero.mpr h2, List.count_eq_zero.mpr h3,
      List.count_eq_zero.mpr hrep, List.count_eq_zero.mpr hat]

/-- Claim C5 witness: a concrete frame with visible length 173 wraps with
a 4-space continuation indent. -/
theorem claim5_witness :
    render 0 frameLong false = some (part1 0 frameLong.address false ++ part2 frameLong ++
      '\n' :: (List.replicate (5 - 1 - (if false then 3 else 0)) ' ' ++
        chars " at " ++ part3 frameLong)) ∧
    (part1 0 frameLong.address false ++ part2 frameLong ++
      '\n' :: (List.replicate (5 - 1 - (if false then 3 else 0)) ' ' ++
        chars " at " ++ part3 frameLong)).count '\n' = 1 := by
  have h := claim5_theorem 0 frameLong false 173 5 (by decide) (by decide) (by decide)
  exact ⟨h.1, h.2 (by decide) (by decide)⟩

-- ## Claim C6

/-- Claim C6 counterexample: a second consumption request on an
already-drained emitter does write additional text to the output channel
(one blank line: print of the empty join), so the output list changes. -/
theorem claim6_counterexample :
    (nextOp false ((nextOp false (initState [])).2)).2.out
      ≠ ((nextOp false (initState [])).2).out := by decide

/-- Claim C6 (amended): a second consumption request on an already-drained
emitter instance re-reads no frames and signals completion immediately,
but emits exactly one blank line (a lone newline, from the unconditional
print of the empty join) rather than producing no output at all. -/
theorem claim6_theorem (sa : Bool) (st : EmitState) (h : st.frames = []) :
    nextOp sa st = (NextResult.stopIteration, { st with out := st.out ++ [['\n']] }) := by
  obtain ⟨fr, o⟩ := st
  simp only at h
  subst h
  rw [nextOp_eq]
  simp [pyPrint, List.intercalate]

/-- Claim C6 witness: a concrete drained emitter state. -/
theorem claim6_witness :
    nextOp false { frames := [], out := [chars "x"] }
      = (NextResult.stopIteration, { frames := [], out := [chars "x", ['\n']] }) :=
  claim6_theorem false { frames := [], out := [chars "x"] } rfl

-- ## Claim C7

/-- Claim C7: for every string with no escape character, the visible
length equals the string's length; and for every string composed of
well-formed SGR spans around plain text, the visible length is the total
length of the plain text. -/
theorem claim7_theorem :
    (∀ s : List Char, '\x1b' ∉ s → lengthImpl s = some s.length) ∧
    (∀ segs : List Seg, (∀ g ∈ segs, Seg.ok g) →
      lengthImpl (flatSegs segs) = some (visSegs segs)) := by
  constructor
  · intro s h
    rw [lengthImpl_eq_scan, scanExcl_false_noesc s h]
    simp
  · exact lengthImpl_flatSegs

/-- Claim C7 witness: an escape-free string and a two-span string. -/
theorem claim7_witness :
    lengthImpl (chars "abc") = some (chars "abc").length ∧
    lengthImpl (flatSegs [Seg.span (chars "[1"), Seg.plain (chars "ab"),
      Seg.span (chars "[0")]) = some (visSegs [Seg.span (chars "[1"),
      Seg.plain (chars "ab"), Seg.span (chars "[0")]) :=
  ⟨claim7_theorem.1 (chars "abc") (by decide), claim7_theorem.2 _ (by decide)⟩

-- ## Claim C8

/-- Claim C8: when the symbolic block lookup raises a runtime-level
failure (modelled as blockLookup = none, the caught RuntimeError), the
failure is recovered locally: the rendered argument list is empty and the
operation is total (no exception escapes). -/
theorem claim8_theorem (fr : Frame) (h : fr.blockLookup = none) :
    frameArgs fr = [] := by
  unfold frameArgs
  rw [h]

/-- Claim C8 witness: a concrete frame whose block lookup failed. -/
theorem claim8_witness : frameArgs frameC1 = [] :=
  claim8_theorem frameC1 rfl

-- ## Claim C9

/-- Claim C9: when a block with a known function is resolved, the
rendered argument list is the comma-joined entries over exactly the
argument symbols, where each entry is "name=value" for a non-empty
printed value and the bare "name" for an empty one. -/
theorem claim9_theorem (fr : Frame) (b fb : Block)
    (h1 : fr.blockLookup = some b) (h2 : ascend b = some fb) :
    frameArgs fr = List.intercalate (chars ", ")
      ((fb.syms.filter (fun s => s.is_argument)).map
        (fun s => if s.value = [] then s.name else s.name ++ '=' :: s.value)) := by
  unfold frameArgs
  rw [h1]
  dsimp only
  rw [h2]
  dsimp only
  rw [argsLoop_eq]
  simp

/-- Claim C9 witness: the concrete small frame renders "x=5, y" — the
empty-valued argument y has no '=' and the non-argument t is skipped. -/
theorem claim9_witness : frameArgs frameSmall = chars "x=5, y" :=
  claim9_theorem frameSmall smallBlock smallBlock rfl rfl

-- ## Claim C10

/-- Claim C10: the iterator handed back to the host yields zero elements —
every next call signals StopIteration — and the first next call on a fresh
proxy emits the entire rendered backtrace as a single write to the output
channel. -/
theorem claim10_theorem (sa : Bool) (frames : List Frame) :
    (nextOp sa (initState frames)).1 = NextResult.stopIteration ∧
    (nextOp sa (initState frames)).2.out = [backtraceText sa frames ++ ['\n']] ∧
    ∀ st : EmitState, (nextOp sa st).1 = NextResult.stopIteration := by
  refine ⟨?_, ?_, ?_⟩
  · rw [nextOp_eq]
  · rw [nextOp_eq]
    simp [initState, pyPrint, backtraceText]
  · intro st
    rw [nextOp_eq]

/-- Claim C10 witness: a singleton backtrace is emitted in one write and
the next call stops. -/
theorem claim10_witness :
    (nextOp false (initState [frameSmall])).1 = NextResult.stopIteration ∧
    (nextOp false (initState [frameSmall])).2.out
      = [backtraceText false [frameSmall] ++ ['\n']] :=
  ⟨(claim10_theorem false [frameSmall]).1, (claim10_theorem false [frameSmall]).2.1⟩

end GdbColour
